import Mathlib

/-!
Verification of the BYD Valley job-tracking snapshot pipeline
(v2 modules: comparator, transitions, data processor, supabase client,
job chains), shallowly embedded in Lean 4.

Modelling conventions:
- Calendar dates and timestamps are natural numbers (day / tick counts).
- A pandas NaT / NaN date cell is an Option that is none.
- A DataFrame is a list of typed records; column access that the source
  performs with row.get on a column that is always created by the
  normalizer becomes a plain field access.
- Library parsers (pd.to_datetime, json.loads) are passed in as explicit
  function parameters returning Option; a raised-and-caught parse error is
  the none result.
-/

/-- One row of the current (processed) batch, as produced by
process_data in v2/data_processor.py: the canonical columns used by the
comparator, transition detector, deduplicator and store sync. -/
structure Job where
  jobId : String
  plannedDate : Option Nat
  actualDate : Option Nat
  status : String
  carrier : String
  market : String
  productSerial : String
  jobCreatedAt : Option Nat
  delayDays : Option Int
  deriving DecidableEq, Repr

/-- One row of the previous snapshot as returned by Supabase
(lowercase column names), restricted to the columns the comparator and
transition detector read. -/
structure PrevRow where
  job_id : String
  planned_date : Option Nat
  actual_date : Option Nat
  status : String
  deriving DecidableEq, Repr

/-- Entry appended to the new_jobs delta list (comparator.py lines 57-62). -/
structure NewJobEntry where
  job_id : String
  carrier : String
  market : String
  status : String
  deriving DecidableEq, Repr

/-- Entry appended to the new_arrivals delta list (comparator.py lines 75-80). -/
structure ArrivalEntry where
  job_id : String
  carrier : String
  actual_date : Nat
  delay_days : Option Int
  deriving DecidableEq, Repr

/-- Entry appended to the new_deliveries delta list (comparator.py lines 91-95). -/
structure DeliveryEntry where
  job_id : String
  carrier : String
  status : String
  deriving DecidableEq, Repr

/-- Entry appended to the new_overdue delta list (comparator.py lines 126-130). -/
structure OverdueEntry where
  job_id : String
  carrier : String
  planned_date : Nat
  deriving DecidableEq, Repr

/-- The DeltaSet returned by compare_snapshots. -/
structure Deltas where
  new_jobs : List NewJobEntry
  new_arrivals : List ArrivalEntry
  new_deliveries : List DeliveryEntry
  new_overdue : List OverdueEntry
  deriving DecidableEq, Repr

/-- Model of the Python str.lower method: lowercase every character.
Defined over the character list so that it evaluates inside the kernel. -/
def pyLower (s : String) : String := String.mk (s.data.map Char.toLower)

/-- Whitespace recognizer for the model of Python str.strip. -/
def isPyWS (c : Char) : Bool := c = ' ' ∨ c = '\t' ∨ c = '\n' ∨ c = '\r'

/-- Model of the Python str.strip method: drop whitespace from both ends. -/
def pyStrip (s : String) : String :=
  String.mk (((s.data.dropWhile isPyWS).reverse.dropWhile isPyWS).reverse)

/-- The completed-status keyword list shared by comparator.py (line 86)
and job_chains.py (line 19). -/
def completedKeywords : List String := ["delivered", "complete", "completed"]

/-- comparator.py line 50: previous_df.set_index on job_id followed by
to_dict. With duplicate job_id values the later row overwrites the
earlier one, so lookup returns the last matching row. -/
def prevLookup (previous : List PrevRow) (id : String) : Option PrevRow :=
  previous.reverse.find? (fun r => r.job_id == id)

/-- comparator.py lines 14-132, compare_snapshots. The Python loop appends
to four independent lists; here each list is computed by its own pass over
the current batch, which appends the same entries in the same order.
The continue after the new-jobs branch is the none arm of the prevLookup
match in the other three passes. today is the run date; the overdue branch
compares the planned date against yesterday, computed as today - 1
(comparator.py lines 123-125). -/
def compare_snapshots (today : Nat) (current : List Job) (previous : List PrevRow) : Deltas :=
  if previous.isEmpty then ⟨[], [], [], []⟩
  else
    { new_jobs := current.filterMap (fun r =>
        match prevLookup previous r.jobId with
        | none => some ⟨r.jobId, r.carrier, r.market, r.status⟩
        | some _ => none)
      new_arrivals := current.filterMap (fun r =>
        match prevLookup previous r.jobId with
        | none => none
        | some p =>
          match r.actualDate, p.actual_date with
          | some a, none => some ⟨r.jobId, r.carrier, a, r.delayDays⟩
          | _, _ => none)
      new_deliveries := current.filterMap (fun r =>
        match prevLookup previous r.jobId with
        | none => none
        | some p =>
          if pyLower r.status ∈ completedKeywords ∧ pyLower p.status ∉ completedKeywords
          then some ⟨r.jobId, r.carrier, r.status⟩ else none)
      new_overdue := current.filterMap (fun r =>
        match prevLookup previous r.jobId with
        | none => none
        | some _ =>
          match r.actualDate with
          | some _ => none
          | none =>
            match r.plannedDate with
            | none => none
            | some pd => if pd = today - 1 then some ⟨r.jobId, r.carrier, pd⟩ else none) }

/-- The gap-day scenario of test_delta.py (test_overdue_gap_days), with
days numbered by day of month: the previous snapshot was taken Friday
2026-02-20, the current batch is processed Monday 2026-02-23 (today = 23).
Four jobs, none arrived: planned Saturday 21, Sunday 22, long-past 10,
future 28. -/
def gapPrev : List PrevRow :=
  [ ⟨"JOB-SAT", some 21, none, "Manifested"⟩
  , ⟨"JOB-SUN", some 22, none, "Manifested"⟩
  , ⟨"JOB-OLD", some 10, none, "Manifested"⟩
  , ⟨"JOB-FUT", some 28, none, "Manifested"⟩ ]

/-- Current Monday batch for the gap-day scenario: the same four jobs,
still unarrived, statuses unchanged. -/
def gapCurrent : List Job :=
  [ ⟨"JOB-SAT", some 21, none, "Manifested", "Carrier A", "", "", none, none⟩
  , ⟨"JOB-SUN", some 22, none, "Manifested", "Carrier B", "", "", none, none⟩
  , ⟨"JOB-OLD", some 10, none, "Manifested", "Carrier C", "", "", none, none⟩
  , ⟨"JOB-FUT", some 28, none, "Manifested", "Carrier D", "", "", none, none⟩ ]

/-- C1: the claim (and the repository's own test_overdue_gap_days
docstring) requires every job planned during a multi-day gap and still
unarrived to appear in new_overdue. The code (comparator.py line 125)
instead flags a job only when its planned date equals today - 1 and never
consults the previous snapshot: on the Monday run the Saturday job is
silently dropped and only the Sunday job is flagged. -/
theorem compare_snapshots_gap_day_bug :
    (compare_snapshots 23 gapCurrent gapPrev).new_overdue
      = [⟨"JOB-SUN", "Carrier B", 22⟩]
    ∧ ¬ ∃ e ∈ (compare_snapshots 23 gapCurrent gapPrev).new_overdue,
        e.job_id = "JOB-SAT" := by
  constructor
  · rfl
  · decide

/-- Previous snapshot of the spec section-8 delta-correctness scenario:
Job A unarrived with planned date two days before the run date 10, Job B
arrived with status En Route. -/
def c5Prev : List PrevRow :=
  [ ⟨"JOB-A", some 8, none, "Manifested"⟩
  , ⟨"JOB-B", some 7, some 7, "En Route"⟩ ]

/-- Current batch of the delta-correctness scenario: A now arrived, B now
Delivered, C brand new. -/
def c5Current : List Job :=
  [ ⟨"JOB-A", some 8, some 9, "Arrived", "Carrier A", "", "", none, some 1⟩
  , ⟨"JOB-B", some 7, some 7, "Delivered", "Carrier B", "", "", none, some 0⟩
  , ⟨"JOB-C", some 12, none, "Manifested", "Carrier C", "", "", none, none⟩ ]

/-- C5: against a non-empty previous snapshot, a job of the current batch
is classified into new_jobs iff its job_id is absent from the previous
snapshot, into new_arrivals iff its actual date is set now and was unset
before, and into new_deliveries iff its status matches the completion
vocabulary now and did not before; on the concrete three-job scenario the
result is exactly new_jobs = C, new_arrivals = A, new_deliveries = B,
new_overdue empty. -/
theorem compare_snapshots_classification :
    (∀ (today : Nat) (current : List Job) (previous : List PrevRow),
        previous ≠ [] → (current.map Job.jobId).Nodup →
        ∀ j ∈ current,
          ((∃ e ∈ (compare_snapshots today current previous).new_jobs,
              e.job_id = j.jobId) ↔ prevLookup previous j.jobId = none)
          ∧ ((∃ e ∈ (compare_snapshots today current previous).new_arrivals,
              e.job_id = j.jobId) ↔
             ∃ p, prevLookup previous j.jobId = some p ∧
                  j.actualDate.isSome ∧ p.actual_date = none)
          ∧ ((∃ e ∈ (compare_snapshots today current previous).new_deliveries,
              e.job_id = j.jobId) ↔
             ∃ p, prevLookup previous j.jobId = some p ∧
                  pyLower j.status ∈ completedKeywords ∧
                  pyLower p.status ∉ completedKeywords))
    ∧ compare_snapshots 10 c5Current c5Prev
        = ⟨[⟨"JOB-C", "Carrier C", "", "Manifested"⟩],
           [⟨"JOB-A", "Carrier A", 9, some 1⟩],
           [⟨"JOB-B", "Carrier B", "Delivered"⟩], []⟩ := by
  constructor
  · intro today current previous hne hnd j hj
    have hinj := List.inj_on_of_nodup_map hnd
    have hemp : previous.isEmpty = false := by
      cases previous with
      | nil => exact absurd rfl hne
      | cons a as => rfl
    refine ⟨?_, ?_, ?_⟩
    · simp only [compare_snapshots, hemp, Bool.false_eq_true, if_false,
        List.mem_filterMap]
      constructor
      · rintro ⟨e, ⟨a, ha, hfa⟩, heq⟩
        split at hfa
        · rename_i hpl
          simp only [Option.some.injEq] at hfa
          have heid : e.job_id = a.jobId := by rw [← hfa]
          have hij : a.jobId = j.jobId := by rw [← heid, heq]
          rw [← hij]
          exact hpl
        · simp at hfa
      · intro hlook
        refine ⟨⟨j.jobId, j.carrier, j.market, j.status⟩, ⟨j, hj, ?_⟩, rfl⟩
        simp only [hlook]
    · simp only [compare_snapshots, hemp, Bool.false_eq_true, if_false,
        List.mem_filterMap]
      constructor
      · rintro ⟨e, ⟨a, ha, hfa⟩, heq⟩
        split at hfa
        · simp at hfa
        · rename_i p hpl
          split at hfa
          · rename_i x hact hpact
            simp only [Option.some.injEq] at hfa
            have heid : e.job_id = a.jobId := by rw [← hfa]
            have haj : a = j := hinj ha hj (by rw [← heq, heid])
            subst haj
            exact ⟨p, hpl, by rw [hact]; rfl, hpact⟩
          · simp at hfa
      · rintro ⟨p, hpl, hact, hpact⟩
        rcases hx : j.actualDate with _ | x
        · rw [hx] at hact
          simp at hact
        · refine ⟨⟨j.jobId, j.carrier, x, j.delayDays⟩, ⟨j, hj, ?_⟩, rfl⟩
          simp only [hpl, hx, hpact]
    · simp only [compare_snapshots, hemp, Bool.false_eq_true, if_false,
        List.mem_filterMap]
      constructor
      · rintro ⟨e, ⟨a, ha, hfa⟩, heq⟩
        split at hfa
        · simp at hfa
        · rename_i p hpl
          split at hfa
          · rename_i hcond
            simp only [Option.some.injEq] at hfa
            have heid : e.job_id = a.jobId := by rw [← hfa]
            have haj : a = j := hinj ha hj (by rw [← heq, heid])
            subst haj
            exact ⟨p, hpl, hcond.1, hcond.2⟩
          · simp at hfa
      · rintro ⟨p, hpl, hc1, hc2⟩
        refine ⟨⟨j.jobId, j.carrier, j.status⟩, ⟨j, hj, ?_⟩, rfl⟩
        simp only [hpl]
        rw [if_pos ⟨hc1, hc2⟩]
  · decide

/-- Witness for the universally quantified part of
compare_snapshots_classification, instantiated on the concrete scenario
at job C with the hypotheses discharged by evaluation. -/
theorem compare_snapshots_classification_witness :
    (∃ e ∈ (compare_snapshots 10 c5Current c5Prev).new_jobs,
        e.job_id = "JOB-C") ↔ prevLookup c5Prev "JOB-C" = none := by
  have h := compare_snapshots_classification.1 10 c5Current c5Prev
    (by decide) (by decide)
    ⟨"JOB-C", some 12, none, "Manifested", "Carrier C", "", "", none, none⟩
    (by decide)
  exact h.1

/-- StageTransition record emitted by detect_transitions
(transitions.py lines 43-48 and 72-88). -/
structure Transition where
  job_id : String
  from_status : Option String
  to_status : String
  transitioned_at : Nat
  deriving DecidableEq, Repr

/-- transitions.py lines 58-61: the prev_map dict of stripped previous
statuses keyed by job_id; with duplicate ids the later row overwrites the
earlier one. -/
def transPrevLookup (previous : List PrevRow) (id : String) : Option String :=
  (previous.reverse.find? (fun r => r.job_id == id)).map (fun r => pyStrip r.status)

/-- transitions.py lines 39-48, the loop body when no previous snapshot
exists: record the initial status (unstripped) for every row with a
non-empty job_id and status. -/
def transitionRowFirst (t : Nat) (r : Job) : Option Transition :=
  if r.jobId = "" ∨ r.status = "" then none
  else some ⟨r.jobId, none, r.status, t⟩

/-- transitions.py lines 63-88, the loop body when a previous snapshot
exists: skip rows with empty job_id or whitespace-only status, emit an
initial transition for ids absent from prev_map, and otherwise emit a
transition exactly when the stripped statuses differ case-insensitively. -/
def transitionRow (t : Nat) (previous : List PrevRow) (r : Job) : Option Transition :=
  if r.jobId = "" ∨ pyStrip r.status = "" then none
  else
    match transPrevLookup previous r.jobId with
    | none => some ⟨r.jobId, none, pyStrip r.status, t⟩
    | some ps =>
      if pyLower (pyStrip r.status) ≠ pyLower ps
      then some ⟨r.jobId, some ps, pyStrip r.status, t⟩ else none

/-- transitions.py lines 15-90, detect_transitions. t is the
datetime.now timestamp recorded in every emitted transition. -/
def detect_transitions (t : Nat) (current : List Job) (previous : List PrevRow) : List Transition :=
  if previous.isEmpty then current.filterMap (transitionRowFirst t)
  else current.filterMap (transitionRow t previous)

/-- The condition under which transitions.py emits a transition for a
current row against a non-empty previous snapshot: non-empty job_id,
non-whitespace status, and either no previous record or a case-insensitive
status change. -/
def wouldEmit (previous : List PrevRow) (r : Job) : Bool :=
  !(r.jobId == "") && !(pyStrip r.status == "") &&
    (match transPrevLookup previous r.jobId with
     | none => true
     | some ps => !(pyLower (pyStrip r.status) == pyLower ps))

/-- C8 counterexample: a current record whose status is empty while the
previous snapshot holds status A for the same job_id. The statuses differ
case-insensitively, so the claim requires one emitted transition, but
detect_transitions skips the record and emits nothing. -/
theorem detect_transitions_empty_status_counterexample :
    detect_transitions 0
        [⟨"J1", none, none, "", "", "", "", none, none⟩]
        [⟨"J1", none, none, "A"⟩] = []
    ∧ pyLower (pyStrip "") ≠ pyLower (pyStrip "A")
    ∧ transPrevLookup [⟨"J1", none, none, "A"⟩] "J1" = some ("A") := by
  refine ⟨by decide, by decide, by decide⟩

/-- Every transition emitted by the per-row loop body carries the job_id
of the row it came from. -/
theorem transitionRow_jobId {t : Nat} {previous : List PrevRow} {r : Job}
    {tr : Transition} (h : transitionRow t previous r = some tr) :
    tr.job_id = r.jobId := by
  unfold transitionRow at h
  split at h
  · simp at h
  · split at h
    · simp only [Option.some.injEq] at h
      rw [← h]
    · split at h
      · simp only [Option.some.injEq] at h
        rw [← h]
      · simp at h

/-- The loop body emits exactly when wouldEmit holds, and the emitted
transition records the previous stripped status (none when no previous
record exists) and the stripped current status. -/
theorem transitionRow_eq (t : Nat) (previous : List PrevRow) (r : Job) :
    transitionRow t previous r
      = if wouldEmit previous r
        then some ⟨r.jobId, transPrevLookup previous r.jobId, pyStrip r.status, t⟩
        else none := by
  unfold transitionRow wouldEmit
  rcases hid : r.jobId == "" with _ | _
  · rcases hst : pyStrip r.status == "" with _ | _
    · have h1 : ¬(r.jobId = "" ∨ pyStrip r.status = "") := by
        rw [← beq_iff_eq (a := r.jobId), ← beq_iff_eq (a := pyStrip r.status), hid, hst]
        simp
      rw [if_neg h1]
      rcases hpl : transPrevLookup previous r.jobId with _ | ps
      · simp [hid, hst]
      · rcases hne : pyLower (pyStrip r.status) == pyLower ps with _ | _
        · have : pyLower (pyStrip r.status) ≠ pyLower ps := by
            intro hcontra
            rw [hcontra] at hne
            simp at hne
          simp [this, hid, hst, hne]
        · have : ¬ pyLower (pyStrip r.status) ≠ pyLower ps := by
            simp only [ne_eq, not_not]
            exact beq_iff_eq.mp hne
          simp [this, hid, hst, hne]
    · have h1 : r.jobId = "" ∨ pyStrip r.status = "" := Or.inr (beq_iff_eq.mp hst)
      rw [if_pos h1]
      simp [hid, hst]
  · have h1 : r.jobId = "" ∨ pyStrip r.status = "" := Or.inl (beq_iff_eq.mp hid)
    rw [if_pos h1]
    simp [hid]

/-- If no element of the list can produce a transition satisfying p,
the filtered filterMap is empty. -/
theorem filter_filterMap_nil {α β : Type} (f : α → Option β) (p : β → Bool)
    (l : List α) (h : ∀ b ∈ l, ∀ tr, f b = some tr → p tr = false) :
    (l.filterMap f).filter p = [] := by
  induction l with
  | nil => rfl
  | cons a rest ih =>
    rw [List.filterMap_cons]
    rcases hfa : f a with _ | tr
    · exact ih (fun b hb => h b (List.mem_cons_of_mem a hb))
    · rw [List.filter_cons, h a (List.mem_cons_self a rest) tr hfa]
      simp only [Bool.false_eq_true, if_false]
      exact ih (fun b hb => h b (List.mem_cons_of_mem a hb))

/-- C8 (amended): against a non-empty previous snapshot, for every job of
a current batch with pairwise distinct job ids, the transitions whose
job_id matches that job are exactly one transition — carrying the previous
stripped status as from_status (none when the job has no previous record)
and the stripped current status as to_status — when the job has a
non-empty id, a non-whitespace status and a case-insensitive status
change or no previous record; and no transition at all otherwise, in
particular when the status is unchanged up to case or the record has an
empty id or status. -/
theorem detect_transitions_characterization :
    ∀ (t : Nat) (current : List Job) (previous : List PrevRow),
      previous ≠ [] → (current.map Job.jobId).Nodup →
      ∀ j ∈ current,
        (detect_transitions t current previous).filter
            (fun tr => tr.job_id == j.jobId)
          = if wouldEmit previous j
            then [⟨j.jobId, transPrevLookup previous j.jobId, pyStrip j.status, t⟩]
            else [] := by
  intro t current previous hne hnd j hj
  have hemp : previous.isEmpty = false := by
    cases previous with
    | nil => exact absurd rfl hne
    | cons a as => rfl
  unfold detect_transitions
  rw [hemp]
  simp only [Bool.false_eq_true, if_false]
  induction current with
  | nil => cases hj
  | cons a rest ih =>
    rw [List.map_cons, List.nodup_cons] at hnd
    rw [List.filterMap_cons]
    rcases List.mem_cons.mp hj with rfl | hjr
    · have hrest : ((rest.filterMap (transitionRow t previous)).filter
          (fun tr => tr.job_id == j.jobId)) = [] := by
        apply filter_filterMap_nil
        intro b hb tr htr
        have hid : tr.job_id = b.jobId := transitionRow_jobId htr
        have hbne : b.jobId ≠ j.jobId := by
          intro hcontra
          exact hnd.1 (hcontra ▸ List.mem_map_of_mem Job.jobId hb)
        rw [hid]
        exact beq_eq_false_iff_ne.mpr hbne
      rw [transitionRow_eq]
      rcases hw : wouldEmit previous j with _ | _
      · simp only [Bool.false_eq_true, if_false]
        exact hrest
      · simp only [if_true]
        rw [List.filter_cons]
        simp only [beq_self_eq_true, if_true]
        rw [hrest]
    · have haj : a.jobId ≠ j.jobId := by
        intro hcontra
        exact hnd.1 (hcontra ▸ List.mem_map_of_mem Job.jobId hjr)
      have htail := ih hnd.2 hjr
      rcases hfa : transitionRow t previous a with _ | tr
      · exact htail
      · rw [List.filter_cons]
        have : (tr.job_id == j.jobId) = false := by
          rw [transitionRow_jobId hfa]
          exact beq_eq_false_iff_ne.mpr haj
        rw [this]
        simp only [Bool.false_eq_true, if_false]
        exact htail

/-- Witness for detect_transitions_characterization at a concrete status
change: previous status Alpha, current status Beta, one transition with
from_status Alpha is produced. -/
theorem detect_transitions_characterization_witness :
    (detect_transitions 5
        [⟨"P1", none, none, "Beta", "", "", "", none, none⟩]
        [⟨"P1", none, none, "Alpha"⟩]).filter
          (fun tr => tr.job_id == "P1")
      = [⟨"P1", some ("Alpha"), "Beta", 5⟩] := by
  have h := detect_transitions_characterization 5
    [⟨"P1", none, none, "Beta", "", "", "", none, none⟩]
    [⟨"P1", none, none, "Alpha"⟩]
    (by decide) (by decide)
    ⟨"P1", none, none, "Beta", "", "", "", none, none⟩ (by decide)
  simpa using h

/-- JSON values as decoded by json.loads, with objects as ordered field
lists (CPython dicts preserve insertion order, which the scan-log
semantics depend on). Numbers are modelled as integers; none of the
verified claims involves fractional JSON numbers. -/
inductive JVal where
  | jnull
  | jbool (b : Bool)
  | jnum (n : Int)
  | jstr (s : String)
  | jarr (xs : List JVal)
  | jobj (fields : List (String × JVal))

/-- Python dict lookup on a decoded JSON object (keys are unique after
json.loads, so the first match is the dict entry). -/
def jlookup (fields : List (String × JVal)) (k : String) : Option JVal :=
  (fields.find? (fun p => p.1 == k)).map (fun p => p.2)

/-- Python equality against the integer 1 as used in
data_processor.py line 68 (details.get of manual compared with 1).
In Python, bool is a subclass of int, so True equals 1. -/
def pyEqOne : JVal → Bool
  | .jnum n => n == 1
  | .jbool b => b
  | _ => false

/-- One scan event as built by parse_scan_data
(data_processor.py lines 63-71): values are stored as decoded, so the
non-boolean fields keep their JSON value type. -/
structure ScanEvent where
  serial_number : String
  username : JVal
  timestamp : JVal
  manual : Bool
  latitude : JVal
  longitude : JVal

/-- data_processor.py lines 64-71: build one scan event from a serial key
and its details dict, with the literal defaults of the source. -/
def mkScanEvent (serial : String) (d : List (String × JVal)) : ScanEvent :=
  { serial_number := serial
  , username := (jlookup d ("username")).getD (.jstr ("Unknown"))
  , timestamp := (jlookup d ("timestamp")).getD (.jstr (""))
  , manual := pyEqOne ((jlookup d ("manual")).getD (.jnum 0))
  , latitude := (jlookup d ("latitude")).getD (.jstr (""))
  , longitude := (jlookup d ("longitude")).getD (.jstr ("")) }

/-- The data.items() loop of parse_scan_data (lines 63-72): one event per
key in encounter order; a details value that is not a dict makes the
Python attribute access raise, modelled as none. -/
def scanRows : List (String × JVal) → Option (List ScanEvent)
  | [] => some []
  | p :: rest =>
    match p.2 with
    | .jobj d => (scanRows rest).map (fun tail => mkScanEvent p.1 d :: tail)
    | _ => none

/-- data_processor.py lines 34-76, parse_scan_data. loads is json.loads
returning none on a JSONDecodeError (the only exception the source
catches); the field is none when the cell is NaN. A none result models an
uncaught exception: json.loads returning a non-object, or an object whose
value is not a dict. -/
def parse_scan_data (loads : String → Option JVal) (field : Option String) :
    Option (List ScanEvent) :=
  match field with
  | none => some []
  | some s =>
    if pyStrip s = "" then some []
    else
      match loads s with
      | none => some []
      | some (.jobj fields) => scanRows fields
      | some _ => none

/-- data_processor.py lines 188-199: the per-record scan summary that
process_data derives from the parsed events, Scan_Count = len(scans) and
Scan_User = scans[0].username (empty string when there are no scans). -/
def scanSummary (loads : String → Option JVal) (field : Option String) :
    Option (Nat × JVal) :=
  (parse_scan_data loads field).map (fun scans =>
    (scans.length,
     match scans with
     | [] => JVal.jstr ("")
     | e :: _ => e.username))

/-- Modelled from the spec: the spec (section 3 and section 8) defines the
last-scan user as the username of the dict entry at the final key position
of the scan JSON, in encounter order. -/
def specLastScanUser (fields : List (String × JVal)) : JVal :=
  match fields.getLast? with
  | some (_, .jobj d) => (jlookup d ("username")).getD (.jstr ("Unknown"))
  | _ => .jstr ("")

/-- A concrete json.loads behavior: the raw cell J decodes to a two-key
scan object whose first key has username alice and last key has
username bob. -/
def scanLoadsTwo : String → Option JVal := fun s =>
  if s = "J" then
    some (.jobj
      [ ("S1", .jobj [("username", .jstr ("alice"))])
      , ("S2", .jobj [("username", .jstr ("bob"))]) ])
  else none

/-- C2 counterexample: on a well-formed two-key scan object the claim says
the last-scan user is the username of the last key (bob), but process_data
reads scans[0] and reports the first key's username (alice). -/
theorem scanSummary_first_key_counterexample :
    scanSummary scanLoadsTwo (some ("J")) = some (2, JVal.jstr ("alice"))
    ∧ specLastScanUser
        [ ("S1", .jobj [("username", .jstr ("alice"))])
        , ("S2", .jobj [("username", .jstr ("bob"))]) ] = JVal.jstr ("bob")
    ∧ JVal.jstr ("alice") ≠ JVal.jstr ("bob") := by
  refine ⟨rfl, rfl, ?_⟩
  intro h
  injection h with h1
  exact absurd h1 (by decide)

/-- The items loop preserves the number of keys. -/
theorem scanRows_length :
    ∀ (fields : List (String × JVal)) (scans : List ScanEvent),
      scanRows fields = some scans → scans.length = fields.length := by
  intro fields
  induction fields with
  | nil =>
    intro scans h
    simp only [scanRows, Option.some.injEq] at h
    subst h
    rfl
  | cons p rest ih =>
    intro scans h
    unfold scanRows at h
    rcases hp2 : p.2 with _ | b | n | s | xs | d0 <;> rw [hp2] at h <;> simp at h
    obtain ⟨tail, htail, hscans⟩ := h
    subst hscans
    rw [List.length_cons, List.length_cons, ih tail htail]

/-- When every value of the object is itself an object, the items loop
succeeds. -/
theorem scanRows_all_obj :
    ∀ (fields : List (String × JVal)),
      (∀ p ∈ fields, ∃ d, p.2 = JVal.jobj d) →
      ∃ scans, scanRows fields = some scans := by
  intro fields
  induction fields with
  | nil => intro _; exact ⟨[], rfl⟩
  | cons p rest ih =>
    intro h
    rcases h p (List.mem_cons_self p rest) with ⟨d, hd⟩
    rcases ih (fun q hq => h q (List.mem_cons_of_mem p hq)) with ⟨tail, htail⟩
    refine ⟨mkScanEvent p.1 d :: tail, ?_⟩
    unfold scanRows
    rw [hd, htail]
    rfl

/-- Eventwise content of the items loop: the event at position i is built
from the key-value pair at position i. -/
theorem scanRows_get :
    ∀ (fields : List (String × JVal)) (scans : List ScanEvent),
      scanRows fields = some scans →
      ∀ (i : Nat) (hi : i < fields.length) (hs : i < scans.length)
        (serial : String) (d : List (String × JVal)),
        fields.get ⟨i, hi⟩ = (serial, JVal.jobj d) →
        scans.get ⟨i, hs⟩ = mkScanEvent serial d := by
  intro fields
  induction fields with
  | nil =>
    intro scans h i hi
    exact absurd hi (by simp)
  | cons p rest ih =>
    intro scans h i hi hs serial d hget
    unfold scanRows at h
    rcases hp2 : p.2 with _ | b | n | s | xs | d0 <;> rw [hp2] at h <;> simp at h
    obtain ⟨tail, htail, hscans⟩ := h
    subst hscans
    cases i with
    | zero =>
      have hp : p = (serial, JVal.jobj d) := hget
      have hd0 : JVal.jobj d = JVal.jobj d0 := by
        rw [← hp2, hp]
      have hdd : d = d0 := by injection hd0
      show mkScanEvent p.1 d0 = mkScanEvent serial d
      rw [hp, hdd]
    | succ k =>
      show tail.get ⟨k, Nat.lt_of_succ_lt_succ hs⟩ = mkScanEvent serial d
      exact ih tail htail k (Nat.lt_of_succ_lt_succ hi)
        (Nat.lt_of_succ_lt_succ hs) serial d hget

/-- C2 (amended): an absent, empty/whitespace, or malformed scan cell
yields scan_count 0 and an empty scan-user string without an exception; a
well-formed JSON object whose N values are all objects yields
scan_count = N and a scan user equal to the username of the FIRST key in
encounter order (Unknown when that entry has no username key), empty when
the object has no keys. -/
theorem scanSummary_characterization :
    ∀ (loads : String → Option JVal) (field : Option String),
      (field = none → scanSummary loads field = some (0, JVal.jstr ("")))
      ∧ (∀ s, field = some s → pyStrip s = "" →
          scanSummary loads field = some (0, JVal.jstr ("")))
      ∧ (∀ s, field = some s → pyStrip s ≠ "" → loads s = none →
          scanSummary loads field = some (0, JVal.jstr ("")))
      ∧ (∀ s fields, field = some s → pyStrip s ≠ "" →
          loads s = some (JVal.jobj fields) →
          (∀ p ∈ fields, ∃ d, p.2 = JVal.jobj d) →
          ∃ scans, parse_scan_data loads field = some scans
            ∧ scans.length = fields.length
            ∧ (∀ serial d rest, fields = (serial, JVal.jobj d) :: rest →
                scanSummary loads field
                  = some (fields.length,
                      (jlookup d ("username")).getD (JVal.jstr ("Unknown"))))
            ∧ (fields = [] →
                scanSummary loads field = some (0, JVal.jstr ("")))) := by
  intro loads field
  refine ⟨?_, ?_, ?_, ?_⟩
  · intro h
    subst h
    rfl
  · intro s hf hstrip
    subst hf
    simp [scanSummary, parse_scan_data, hstrip]
  · intro s hf hstrip hload
    subst hf
    simp [scanSummary, parse_scan_data, hstrip, hload]
  · intro s fields hf hstrip hload hobj
    subst hf
    rcases scanRows_all_obj fields hobj with ⟨scans, hscans⟩
    have hparse : parse_scan_data loads (some s) = some scans := by
      simp [parse_scan_data, hstrip, hload, hscans]
    refine ⟨scans, hparse, scanRows_length fields scans hscans, ?_, ?_⟩
    · intro serial d rest hfields
      subst hfields
      unfold scanRows at hscans
      simp only [] at hscans
      rcases hmap : scanRows rest with _ | tail
      · rw [hmap] at hscans
        simp at hscans
      · rw [hmap] at hscans
        simp only [Option.map_some', Option.some.injEq] at hscans
        subst hscans
        have hlt := scanRows_length rest tail hmap
        simp [scanSummary, hparse, mkScanEvent, hlt]
    · intro hfields
      subst hfields
      have : scans = [] := by
        have := scanRows_length [] scans hscans
        exact List.length_eq_zero.mp this
      subst this
      simp [scanSummary, hparse]

/-- Witness for scanSummary_characterization: the concrete two-key scan
object gives scan_count 2 and the first key's username alice. -/
theorem scanSummary_characterization_witness :
    scanSummary scanLoadsTwo (some ("J")) = some (2, JVal.jstr ("alice")) := by
  have h := (scanSummary_characterization scanLoadsTwo (some ("J"))).2.2.2
    "J"
    [ ("S1", JVal.jobj [("username", JVal.jstr ("alice"))])
    , ("S2", JVal.jobj [("username", JVal.jstr ("bob"))]) ]
    rfl (by decide) rfl
    (by
      intro p hp
      rcases List.mem_cons.mp hp with h1 | h2
      · exact ⟨[("username", JVal.jstr ("alice"))], by rw [h1]⟩
      · rcases List.mem_cons.mp h2 with h1 | h3
        · exact ⟨[("username", JVal.jstr ("bob"))], by rw [h1]⟩
        · exact absurd h3 (List.not_mem_nil p))
  rcases h with ⟨scans, hparse, hlen, hhead, hnil⟩
  have := hhead ("S1") [("username", JVal.jstr ("alice"))]
    [("S2", JVal.jobj [("username", JVal.jstr ("bob"))])] rfl
  simpa using this

/-- C10: for a well-formed scan object, the event built for the key at
position i fills the undocumented per-event defaults: username Unknown
when absent, manual true exactly when the source value equals the integer
1 under Python equality (pyEqOne; absent defaults to 0, hence false), and
empty strings for absent timestamp, latitude and longitude. -/
theorem parse_scan_data_event_defaults :
    ∀ (loads : String → Option JVal) (s : String)
      (fields : List (String × JVal)) (scans : List ScanEvent),
      pyStrip s ≠ "" → loads s = some (JVal.jobj fields) →
      parse_scan_data loads (some s) = some scans →
      ∀ (i : Nat) (hi : i < fields.length) (hs : i < scans.length)
        (serial : String) (d : List (String × JVal)),
        fields.get ⟨i, hi⟩ = (serial, JVal.jobj d) →
        (scans.get ⟨i, hs⟩).serial_number = serial
        ∧ (jlookup d ("username") = none →
            (scans.get ⟨i, hs⟩).username = JVal.jstr ("Unknown"))
        ∧ (∀ u, jlookup d ("username") = some u →
            (scans.get ⟨i, hs⟩).username = u)
        ∧ (scans.get ⟨i, hs⟩).manual
            = pyEqOne ((jlookup d ("manual")).getD (JVal.jnum 0))
        ∧ (jlookup d ("timestamp") = none →
            (scans.get ⟨i, hs⟩).timestamp = JVal.jstr (""))
        ∧ (jlookup d ("latitude") = none →
            (scans.get ⟨i, hs⟩).latitude = JVal.jstr (""))
        ∧ (jlookup d ("longitude") = none →
            (scans.get ⟨i, hs⟩).longitude = JVal.jstr ("")) := by
  intro loads s fields scans hstrip hload hparse i hi hs serial d hget
  have hrows : scanRows fields = some scans := by
    simp only [parse_scan_data, if_neg hstrip, hload] at hparse
    exact hparse
  have hev := scanRows_get fields scans hrows i hi hs serial d hget
  rw [hev]
  refine ⟨rfl, ?_, ?_, rfl, ?_, ?_, ?_⟩
  · intro h
    simp [mkScanEvent, h]
  · intro u h
    simp [mkScanEvent, h]
  · intro h
    simp [mkScanEvent, h]
  · intro h
    simp [mkScanEvent, h]
  · intro h
    simp [mkScanEvent, h]

/-- Witness for parse_scan_data_event_defaults: a one-key object whose
details dict has only a manual value of 1 gives an event with username
Unknown, manual true and empty timestamp, latitude and longitude. -/
theorem parse_scan_data_event_defaults_witness :
    ((fun (_ : String) =>
        some (JVal.jobj [("S9", JVal.jobj [("manual", JVal.jnum 1)])])) "X"
      = some (JVal.jobj [("S9", JVal.jobj [("manual", JVal.jnum 1)])]))
    ∧ ([({ serial_number := "S9", username := JVal.jstr ("Unknown")
         , timestamp := JVal.jstr (""), manual := true
         , latitude := JVal.jstr (""), longitude := JVal.jstr ("") } :
           ScanEvent)].get ⟨0, by decide⟩).username = JVal.jstr ("Unknown") := by
  refine ⟨rfl, ?_⟩
  have h := parse_scan_data_event_defaults
    (fun _ => some (JVal.jobj [("S9", JVal.jobj [("manual", JVal.jnum 1)])]))
    "X"
    [("S9", JVal.jobj [("manual", JVal.jnum 1)])]
    [({ serial_number := "S9", username := JVal.jstr ("Unknown")
      , timestamp := JVal.jstr (""), manual := true
      , latitude := JVal.jstr (""), longitude := JVal.jstr ("") } : ScanEvent)]
    (by decide) rfl rfl 0 (by decide) (by decide)
    "S9" [("manual", JVal.jnum 1)] rfl
  exact h.2.1 rfl

/-- data_processor.py lines 100-123, parse_actual_date (and the guard in
process_data lines 120-123): combine job_date and time_complete. toDT is
pd.to_datetime on the combined string, none on a parse error (the bare
except in the source). A field that is none models a missing column or
key; the string sentinels nan and None arise from str() of pandas NaN
cells and are rejected like empty strings. -/
def parse_actual_date (toDT : String → Option Nat)
    (jobDate timeComplete : Option String) : Option Nat :=
  match jobDate, timeComplete with
  | some jd, some tc =>
    let d := pyStrip jd
    let t := pyStrip tc
    if t = "" ∨ t = "nan" ∨ t = "None" then none
    else if d = "" ∨ d = "nan" ∨ d = "None" then none
    else toDT (d ++ " " ++ t)
  | _, _ => none

/-- C9: actual_date is set only when both the date and the completion-time
field are present and non-empty (and non-sentinel); a completion time
without a date, or a date without a completion time, leaves it unset; and
a parse failure of the combined value yields unset rather than an
exception (the function is total and returns none). -/
theorem parse_actual_date_conservative :
    ∀ (toDT : String → Option Nat) (jobDate timeComplete : Option String),
      ((parse_actual_date toDT jobDate timeComplete).isSome →
        ∃ jd tc, jobDate = some jd ∧ timeComplete = some tc ∧
          pyStrip jd ≠ "" ∧ pyStrip tc ≠ "")
      ∧ (jobDate = none →
          parse_actual_date toDT jobDate timeComplete = none)
      ∧ (timeComplete = none →
          parse_actual_date toDT jobDate timeComplete = none)
      ∧ (∀ jd tc, jobDate = some jd → timeComplete = some tc →
          toDT (pyStrip jd ++ " " ++ pyStrip tc) = none →
          parse_actual_date toDT jobDate timeComplete = none) := by
  intro toDT jobDate timeComplete
  refine ⟨?_, ?_, ?_, ?_⟩
  · intro h
    rcases jobDate with _ | jd
    · simp [parse_actual_date] at h
    · rcases timeComplete with _ | tc
      · simp [parse_actual_date] at h
      · refine ⟨jd, tc, rfl, rfl, ?_, ?_⟩
        · intro hd
          simp only [parse_actual_date] at h
          by_cases ht : pyStrip tc = "" ∨ pyStrip tc = "nan" ∨ pyStrip tc = "None"
          · rw [if_pos ht] at h
            simp at h
          · rw [if_neg ht, if_pos (Or.inl hd)] at h
            simp at h
        · intro ht
          simp only [parse_actual_date] at h
          rw [if_pos (Or.inl ht)] at h
          simp at h
  · intro h
    subst h
    rfl
  · intro h
    subst h
    rcases jobDate with _ | jd <;> rfl
  · intro jd tc hjd htc hfail
    subst hjd
    subst htc
    simp only [parse_actual_date]
    by_cases ht : pyStrip tc = "" ∨ pyStrip tc = "nan" ∨ pyStrip tc = "None"
    · rw [if_pos ht]
    · rw [if_neg ht]
      by_cases hd : pyStrip jd = "" ∨ pyStrip jd = "nan" ∨ pyStrip jd = "None"
      · rw [if_pos hd]
      · rw [if_neg hd]
        exact hfail

/-- Witness for parse_actual_date_conservative: with a date present but no
completion time, the actual date stays unset. -/
theorem parse_actual_date_conservative_witness :
    parse_actual_date (fun _ => some 7) (some ("2026-02-16")) none = none := by
  exact (parse_actual_date_conservative (fun _ => some 7)
    (some ("2026-02-16")) none).2.2.1 rfl

/-- One row of the job_snapshots table as written by insert_snapshot
(supabase_client.py lines 50-85), restricted to the columns the verified
claims read; snapshot_date is the run timestamp tagged on every row. -/
structure StoredRow where
  snapshot_date : Nat
  job_id : String
  planned_date : Option Nat
  actual_date : Option Nat
  status : String
  carrier : String
  deriving DecidableEq, Repr

/-- supabase_client.py lines 50-85: the record built from one DataFrame
row for the job_snapshots insert. -/
def mkStoredRow (d : Nat) (j : Job) : StoredRow :=
  ⟨d, j.jobId, j.plannedDate, j.actualDate, j.status, j.carrier⟩

/-- supabase_client.py lines 33-93, insert_snapshot: append one record
per DataFrame row to the job_snapshots table. -/
def insert_snapshot (d : Nat) (df : List Job) (store : List StoredRow) :
    List StoredRow :=
  store ++ df.map (mkStoredRow d)

/-- supabase_client.py lines 118-132: the paginated job_id fetch. The
Python loop reads slices of 1000 rows from the growing offset and stops on
an empty or short page; this recursion consumes the same slices. -/
def fetchPages (remaining : List String) : List String :=
  if h1 : (remaining.take 1000).isEmpty then []
  else if h2 : (remaining.take 1000).length < 1000 then remaining.take 1000
  else remaining.take 1000 ++ fetchPages (remaining.drop 1000)
termination_by remaining.length
decreasing_by
  simp only [List.length_take, Nat.not_lt] at h2
  simp only [List.length_drop]
  omega

/-- The paginated fetch returns every row: each slice is appended and the
loop only stops when a page is empty or short, which happens exactly at
the end of the table. -/
theorem fetchPages_eq : ∀ (l : List String), fetchPages l = l := by
  intro l
  induction l using fetchPages.induct with
  | case1 l h =>
    rw [fetchPages]
    simp only [h, dif_pos]
    simp only [List.isEmpty_eq_true, List.take_eq_nil_iff] at h
    rcases h with h | h
    · simp at h
    · exact h.symm
  | case2 l h1 h2 =>
    rw [fetchPages]
    rw [dif_neg h1, dif_pos h2]
    simp only [List.length_take] at h2
    exact List.take_of_length_le (by omega)
  | case3 l h1 h2 ih =>
    rw [fetchPages]
    rw [dif_neg h1, dif_neg h2, ih]
    exact List.take_append_drop 1000 l

/-- supabase_client.py lines 143-151: the chunked delete loop, removing
rows whose job_id falls in successive 50-id batches. -/
def deleteChunks (ids : List String) (store : List StoredRow) : List StoredRow :=
  if ids.isEmpty then store
  else deleteChunks (ids.drop 50)
    (store.filter (fun r => !((ids.take 50).contains r.job_id)))
termination_by ids.length
decreasing_by
  rename_i h
  simp only [List.isEmpty_eq_true] at h
  simp only [List.length_drop]
  have : ids.length ≠ 0 := fun hc => h (List.eq_nil_of_length_eq_zero hc)
  omega

/-- The chunked delete has the same net effect as a single delete of every
listed id. -/
theorem deleteChunks_eq : ∀ (ids : List String) (store : List StoredRow),
    deleteChunks ids store = store.filter (fun r => !(ids.contains r.job_id)) := by
  intro ids store
  induction ids, store using deleteChunks.induct with
  | case1 ids store h =>
    rw [deleteChunks]
    simp only [h, if_true]
    simp only [List.isEmpty_eq_true] at h
    subst h
    simp
  | case2 ids store h ih =>
    rw [deleteChunks]
    simp only [h, Bool.false_eq_true, if_false]
    rw [ih]
    rw [List.filter_filter]
    apply List.filter_congr
    intro r hr
    by_cases hm : r.job_id ∈ ids
    · have hsplit : r.job_id ∈ ids.take 50 ∨ r.job_id ∈ ids.drop 50 := by
        rw [← List.take_append_drop 50 ids] at hm
        exact List.mem_append.mp hm
      rcases hsplit with hx | hx <;> simp [hx, hm]
    · have hx1 : r.job_id ∉ ids.take 50 := fun hc => hm (List.mem_of_mem_take hc)
      have hx2 : r.job_id ∉ ids.drop 50 := fun hc => hm (List.mem_of_mem_drop hc)
      simp [hx1, hx2, hm]

/-- supabase_client.py lines 95-157, upsert_active_jobs: fetch all
existing job_ids (paginated), delete every existing row in chunks of 50 —
both the ids present in the export (to be refreshed) and the ids absent
from it (stale) — then insert the whole batch fresh through
insert_snapshot. The export_job_ids set of the source is used only for
the log line and does not affect the stored state. -/
def upsert_active_jobs (d : Nat) (df : List Job) (store : List StoredRow) :
    List StoredRow :=
  let existing_ids := fetchPages (store.map (fun r => r.job_id))
  let cleaned := deleteChunks existing_ids store
  insert_snapshot d df cleaned

/-- The full-replace net effect: after a successful sync the table holds
exactly one fresh record per batch row, whatever it held before. -/
theorem upsert_active_jobs_eq (d : Nat) (df : List Job) (store : List StoredRow) :
    upsert_active_jobs d df store = df.map (mkStoredRow d) := by
  simp only [upsert_active_jobs, insert_snapshot]
  rw [deleteChunks_eq, fetchPages_eq]
  have hnil : store.filter
      (fun r => !((store.map (fun r => r.job_id)).contains r.job_id)) = [] := by
    rw [List.filter_eq_nil_iff]
    intro r hr
    have hmem : r.job_id ∈ store.map (fun r => r.job_id) :=
      List.mem_map_of_mem (fun r => r.job_id) hr
    simp [hmem]
  rw [hnil]
  rfl

/-- C3: for a batch with pairwise distinct job ids and any prior store
state, after upsert_active_jobs completes with all store operations
succeeding, the store holds as many rows as the batch, exactly one row per
batch job_id, and no row for any other id. -/
theorem upsert_active_jobs_conservation :
    ∀ (d : Nat) (df : List Job) (store : List StoredRow),
      (df.map Job.jobId).Nodup →
      (upsert_active_jobs d df store).length = df.length
      ∧ (∀ j ∈ df, ((upsert_active_jobs d df store).filter
            (fun r => r.job_id == j.jobId)).length = 1)
      ∧ (∀ r ∈ upsert_active_jobs d df store, r.job_id ∈ df.map Job.jobId) := by
  intro d df store hnd
  rw [upsert_active_jobs_eq]
  refine ⟨List.length_map df (mkStoredRow d), ?_, ?_⟩
  · intro j hj
    rw [List.filter_map, List.length_map]
    have hpred : (df.filter ((fun r => r.job_id == j.jobId) ∘ mkStoredRow d))
        = df.filter (fun x => x.jobId == j.jobId) := by
      apply List.filter_congr
      intro x _
      rfl
    rw [hpred, ← List.countP_eq_length_filter]
    have hcount : df.countP (fun x => x.jobId == j.jobId)
        = (df.map Job.jobId).count j.jobId := by
      rw [List.count, List.countP_map]
      rfl
    rw [hcount]
    exact List.count_eq_one_of_mem hnd (List.mem_map_of_mem Job.jobId hj)
  · intro r hr
    rcases List.mem_map.mp hr with ⟨x, hx, hrx⟩
    rw [← hrx]
    exact List.mem_map_of_mem Job.jobId hx

/-- Witness for upsert_active_jobs_conservation on a two-job batch over a
non-trivial prior store containing a stale row and an outdated row. -/
theorem upsert_active_jobs_conservation_witness :
    (upsert_active_jobs 3
      [ ⟨"A", some 1, none, "Manifested", "C1", "", "", none, none⟩
      , ⟨"B", some 2, none, "En Route", "C2", "", "", none, none⟩ ]
      [ ⟨1, "A", some 1, none, "Old", "C1"⟩
      , ⟨1, "Z", some 1, none, "Stale", "C9"⟩ ]).length = 2 := by
  exact (upsert_active_jobs_conservation 3
    [ ⟨"A", some 1, none, "Manifested", "C1", "", "", none, none⟩
    , ⟨"B", some 2, none, "En Route", "C2", "", "", none, none⟩ ]
    [ ⟨1, "A", some 1, none, "Old", "C1"⟩
    , ⟨1, "Z", some 1, none, "Stale", "C9"⟩ ] (by decide)).1

/-- C4: running the sync twice in succession with the same batch leaves
the same final store content as running it once (the run timestamps d1
and d2 of the two runs are explicit inputs; the second run fully replaces
whatever the first wrote). -/
theorem upsert_active_jobs_idempotent :
    ∀ (d1 d2 : Nat) (df : List Job) (store : List StoredRow),
      upsert_active_jobs d2 df (upsert_active_jobs d1 df store)
        = upsert_active_jobs d2 df store := by
  intro d1 d2 df store
  rw [upsert_active_jobs_eq, upsert_active_jobs_eq]

/-- One row of the job_chains table as read by get_chain_alerts
(job_chains.py lines 437-461), restricted to the fields the alert logic
uses. -/
structure Chain where
  chain_id : String
  product_serial : String
  carrier : String
  reschedule_count : Nat
  total_delay_days : Nat
  current_status : String
  current_job_id : String
  deriving DecidableEq, Repr

/-- Alert severity grades of get_chain_alerts. -/
inductive Severity where
  | critical
  | warning
  deriving DecidableEq, Repr

/-- One alert record: the source copies the chain fields plus severity
(and a display message, which is pure formatting and not modelled). -/
structure ChainAlert where
  chain : Chain
  severity : Severity
  deriving DecidableEq, Repr

/-- job_chains.py lines 441-452: the severity ladder applied to one chain
row, none meaning the continue branch (no alert). -/
def chainSeverity (c : Chain) : Option Severity :=
  if 3 ≤ c.reschedule_count then some .critical
  else if 2 ≤ c.reschedule_count then some .warning
  else if 14 ≤ c.total_delay_days then some .warning
  else none

/-- job_chains.py lines 412-469, get_chain_alerts over the persisted
chain rows: the store-side query keeps chains whose current_status is not
one of the completed keywords (exact string match in the SQL in-list) and
which satisfy reschedule_count ≥ 2 or total_delay_days ≥ 14; the loop
then grades each row. The source also orders rows by reschedule_count
descending, which permutes but never changes the set of alerts; the table
order is kept here. -/
def get_chain_alerts (chains : List Chain) : List ChainAlert :=
  (chains.filter (fun c =>
      !(completedKeywords.contains c.current_status)
      && (decide (2 ≤ c.reschedule_count) || decide (14 ≤ c.total_delay_days)))).filterMap
    (fun c => (chainSeverity c).map (fun s => ⟨c, s⟩))

/-- C7: among persisted chains whose current_status is not in the
completion vocabulary, a chain is flagged critical iff its
reschedule_count is at least 3, flagged warning iff the count equals 2 or
the count is below 2 with total_delay_days at least 14, and is omitted
from the returned alerts iff the count is below 2 and the delay below 14. -/
theorem get_chain_alerts_thresholds :
    ∀ (chains : List Chain) (c : Chain), c ∈ chains →
      c.current_status ∉ completedKeywords →
      ((⟨c, Severity.critical⟩ : ChainAlert) ∈ get_chain_alerts chains
        ↔ 3 ≤ c.reschedule_count)
      ∧ ((⟨c, Severity.warning⟩ : ChainAlert) ∈ get_chain_alerts chains
        ↔ (c.reschedule_count = 2
           ∨ (c.reschedule_count < 2 ∧ 14 ≤ c.total_delay_days)))
      ∧ ((∀ a ∈ get_chain_alerts chains, a.chain ≠ c)
        ↔ (c.reschedule_count < 2 ∧ c.total_delay_days < 14)) := by
  intro chains c hc hstat
  have hkeep : ∀ s, chainSeverity c = some s →
      (⟨c, s⟩ : ChainAlert) ∈ get_chain_alerts chains := by
    intro s hs
    have hthresh : 2 ≤ c.reschedule_count ∨ 14 ≤ c.total_delay_days := by
      unfold chainSeverity at hs
      by_cases h3 : 3 ≤ c.reschedule_count
      · exact Or.inl (by omega)
      · rw [if_neg h3] at hs
        by_cases h2 : 2 ≤ c.reschedule_count
        · exact Or.inl h2
        · rw [if_neg h2] at hs
          by_cases h14 : 14 ≤ c.total_delay_days
          · exact Or.inr h14
          · rw [if_neg h14] at hs
            simp at hs
    apply List.mem_filterMap.mpr
    refine ⟨c, ?_, by rw [hs]; rfl⟩
    apply List.mem_filter.mpr
    refine ⟨hc, ?_⟩
    simp only [Bool.and_eq_true, Bool.not_eq_true', Bool.or_eq_true,
      decide_eq_true_eq]
    constructor
    · simpa using hstat
    · exact hthresh
  have hmem : ∀ (a : ChainAlert), a ∈ get_chain_alerts chains → a.chain = c →
      chainSeverity c = some a.severity := by
    intro a ha hac
    rcases List.mem_filterMap.mp ha with ⟨c2, hc2, hmap⟩
    rcases Option.map_eq_some'.mp hmap with ⟨s, hs, hsa⟩
    have hcc : c2 = c := by rw [← hac, ← hsa]
    rw [← hsa]
    rw [hcc] at hs
    simpa using hs
  refine ⟨?_, ?_, ?_⟩
  · constructor
    · intro h
      have := hmem ⟨c, Severity.critical⟩ h rfl
      unfold chainSeverity at this
      by_cases h3 : 3 ≤ c.reschedule_count
      · exact h3
      · rw [if_neg h3] at this
        by_cases h2 : 2 ≤ c.reschedule_count
        · rw [if_pos h2] at this
          simp at this
        · rw [if_neg h2] at this
          by_cases h14 : 14 ≤ c.total_delay_days
          · rw [if_pos h14] at this
            simp at this
          · rw [if_neg h14] at this
            simp at this
    · intro h3
      exact hkeep Severity.critical (by simp [chainSeverity, h3])
  · constructor
    · intro h
      have := hmem ⟨c, Severity.warning⟩ h rfl
      unfold chainSeverity at this
      by_cases h3 : 3 ≤ c.reschedule_count
      · rw [if_pos h3] at this
        simp at this
      · rw [if_neg h3] at this
        by_cases h2 : 2 ≤ c.reschedule_count
        · exact Or.inl (by omega)
        · rw [if_neg h2] at this
          by_cases h14 : 14 ≤ c.total_delay_days
          · exact Or.inr ⟨by omega, h14⟩
          · rw [if_neg h14] at this
            simp at this
    · intro h
      rcases h with h2 | ⟨hlt, h14⟩
      · exact hkeep Severity.warning
          (by simp [chainSeverity, h2])
      · exact hkeep Severity.warning
          (by
            have h3 : ¬ 3 ≤ c.reschedule_count := by omega
            have h2 : ¬ 2 ≤ c.reschedule_count := by omega
            simp [chainSeverity, h3, h2, h14])
  · constructor
    · intro h
      by_cases h2 : 2 ≤ c.reschedule_count
      · exfalso
        by_cases h3 : 3 ≤ c.reschedule_count
        · exact h ⟨c, Severity.critical⟩
            (hkeep Severity.critical (by simp [chainSeverity, h3])) rfl
        · exact h ⟨c, Severity.warning⟩
            (hkeep Severity.warning (by simp [chainSeverity, h3, h2])) rfl
      · by_cases h14 : 14 ≤ c.total_delay_days
        · exfalso
          have h3 : ¬ 3 ≤ c.reschedule_count := by omega
          exact h ⟨c, Severity.warning⟩
            (hkeep Severity.warning (by simp [chainSeverity, h3, h2, h14])) rfl
        · exact ⟨by omega, by omega⟩
    · intro h a ha hac
      have := hmem a ha hac
      unfold chainSeverity at this
      have h3 : ¬ 3 ≤ c.reschedule_count := by omega
      have h2 : ¬ 2 ≤ c.reschedule_count := by omega
      have h14 : ¬ 14 ≤ c.total_delay_days := by omega
      rw [if_neg h3, if_neg h2, if_neg h14] at this
      simp at this

/-- Witness for get_chain_alerts_thresholds on the four concrete cases of
the claim: reschedule_count 3 gives critical, 2 gives warning, 1 with 20
delay days gives warning, 1 with 5 delay days gives no alert. -/
theorem get_chain_alerts_thresholds_witness :
    ((⟨⟨"ch1", "S1", "C1", 3, 0, "Manifested", "J1"⟩, Severity.critical⟩ :
        ChainAlert)
      ∈ get_chain_alerts [⟨"ch1", "S1", "C1", 3, 0, "Manifested", "J1"⟩])
    ∧ ((⟨⟨"ch2", "S2", "C1", 2, 0, "Manifested", "J2"⟩, Severity.warning⟩ :
        ChainAlert)
      ∈ get_chain_alerts [⟨"ch2", "S2", "C1", 2, 0, "Manifested", "J2"⟩])
    ∧ ((⟨⟨"ch3", "S3", "C1", 1, 20, "Manifested", "J3"⟩, Severity.warning⟩ :
        ChainAlert)
      ∈ get_chain_alerts [⟨"ch3", "S3", "C1", 1, 20, "Manifested", "J3"⟩])
    ∧ (∀ a ∈ get_chain_alerts [⟨"ch4", "S4", "C1", 1, 5, "Manifested", "J4"⟩],
        a.chain ≠ ⟨"ch4", "S4", "C1", 1, 5, "Manifested", "J4"⟩) := by
  refine ⟨?_, ?_, ?_, ?_⟩
  · exact (get_chain_alerts_thresholds
      [⟨"ch1", "S1", "C1", 3, 0, "Manifested", "J1"⟩]
      ⟨"ch1", "S1", "C1", 3, 0, "Manifested", "J1"⟩
      (by decide) (by decide)).1.mpr (by decide)
  · exact (get_chain_alerts_thresholds
      [⟨"ch2", "S2", "C1", 2, 0, "Manifested", "J2"⟩]
      ⟨"ch2", "S2", "C1", 2, 0, "Manifested", "J2"⟩
      (by decide) (by decide)).2.1.mpr (by decide)
  · exact (get_chain_alerts_thresholds
      [⟨"ch3", "S3", "C1", 1, 20, "Manifested", "J3"⟩]
      ⟨"ch3", "S3", "C1", 1, 20, "Manifested", "J3"⟩
      (by decide) (by decide)).2.1.mpr (by decide)
  · exact (get_chain_alerts_thresholds
      [⟨"ch4", "S4", "C1", 1, 5, "Manifested", "J4"⟩]
      ⟨"ch4", "S4", "C1", 1, 5, "Manifested", "J4"⟩
      (by decide) (by decide)).2.2.mpr (by decide)

/-- data_processor.py lines 383-388: the no-serial mask — NaN (whose str
form is the string nan), the empty string, and the strings nan and None
in any case. -/
def invalidSerial (s : String) : Bool :=
  s == "" || pyLower s == "nan" || pyLower s == "none"

/-- Comparison of sort keys for the descending sort with NaT last
(pandas sort_values ascending False, na_position last): none is the
bottom element. -/
def keyLe : Option Nat → Option Nat → Bool
  | none, _ => true
  | some _, none => false
  | some a, some b => a ≤ b

theorem keyLe_refl (x : Option Nat) : keyLe x x = true := by
  cases x <;> simp [keyLe]

theorem keyLe_total (x y : Option Nat) : keyLe x y = true ∨ keyLe y x = true := by
  cases x <;> cases y <;> simp [keyLe] <;> omega

theorem keyLe_trans {x y z : Option Nat} (h1 : keyLe x y = true)
    (h2 : keyLe y z = true) : keyLe x z = true := by
  cases x <;> cases y <;> cases z <;> simp [keyLe] at h1 h2 ⊢ <;> omega

/-- One insertion step of the descending sort. -/
def insertDesc (key : Job → Option Nat) (j : Job) : List Job → List Job
  | [] => [j]
  | k :: rest =>
    if keyLe (key k) (key j) then j :: k :: rest
    else k :: insertDesc key j rest

/-- data_processor.py lines 396-400: sort_values descending on the chosen
key with missing keys last, realized as an insertion sort. -/
def sortDesc (key : Job → Option Nat) : List Job → List Job
  | [] => []
  | j :: rest => insertDesc key j (sortDesc key rest)

/-- data_processor.py lines 396-400: the sort key choice — the
job-creation timestamp when any row of the valid-serial frame has one,
otherwise the planned date. -/
def dedupKey (has_serial : List Job) : Job → Option Nat :=
  if has_serial.any (fun j => j.jobCreatedAt.isSome) then fun j => j.jobCreatedAt
  else fun j => j.plannedDate

/-- data_processor.py line 403: drop_duplicates on the serial keeping the
first (sorted) occurrence, as the running-seen-set loop. -/
def dropDupSerial (seen : List String) : List Job → List Job
  | [] => []
  | j :: rest =>
    if seen.contains j.productSerial then dropDupSerial seen rest
    else j :: dropDupSerial (j.productSerial :: seen) rest

/-- data_processor.py lines 364-413, deduplicate_jobs: split off the
no-serial rows, sort the valid-serial rows descending by the chosen key,
keep the first row per serial, and report the removed count (the log line
of the source) alongside the surviving rows. -/
def deduplicate_jobs (jobs : List Job) : List Job × Nat :=
  let no_serial := jobs.filter (fun j => invalidSerial j.productSerial)
  let has_serial := jobs.filter (fun j => !(invalidSerial j.productSerial))
  if has_serial.isEmpty then (jobs, 0)
  else
    let key := dedupKey has_serial
    let deduped := dropDupSerial [] (sortDesc key has_serial)
    let result := deduped ++ no_serial
    (result, jobs.length - result.length)

/-- Insertion produces a permutation of consing. -/
theorem insertDesc_perm (key : Job → Option Nat) (j : Job) :
    ∀ (l : List Job), (insertDesc key j l).Perm (j :: l) := by
  intro l
  induction l with
  | nil => exact List.Perm.refl _
  | cons k rest ih =>
    unfold insertDesc
    by_cases h : keyLe (key k) (key j) = true
    · rw [if_pos h]
    · rw [if_neg h]
      exact (List.Perm.cons k ih).trans (List.Perm.swap j k rest)

/-- The insertion sort permutes its input. -/
theorem sortDesc_perm (key : Job → Option Nat) :
    ∀ (l : List Job), (sortDesc key l).Perm l := by
  intro l
  induction l with
  | nil => exact List.Perm.refl _
  | cons j rest ih =>
    unfold sortDesc
    exact (insertDesc_perm key j (sortDesc key rest)).trans (List.Perm.cons j ih)

/-- Membership in an insertion. -/
theorem insertDesc_mem {key : Job → Option Nat} {j x : Job} {l : List Job}
    (h : x ∈ insertDesc key j l) : x = j ∨ x ∈ l := by
  have := (insertDesc_perm key j l).mem_iff.mp h
  simpa using this

/-- Insertion preserves descending pairwise order. -/
theorem insertDesc_pairwise {key : Job → Option Nat} {j : Job} {l : List Job}
    (h : l.Pairwise (fun a b => keyLe (key b) (key a) = true)) :
    (insertDesc key j l).Pairwise (fun a b => keyLe (key b) (key a) = true) := by
  induction l with
  | nil => simp [insertDesc]
  | cons k rest ih =>
    rw [List.pairwise_cons] at h
    unfold insertDesc
    by_cases hkj : keyLe (key k) (key j) = true
    · rw [if_pos hkj]
      rw [List.pairwise_cons]
      constructor
      · intro x hx
        rcases List.mem_cons.mp hx with rfl | hx2
        · exact hkj
        · exact keyLe_trans (h.1 x hx2) hkj
      · exact List.pairwise_cons.mpr h
    · rw [if_neg hkj]
      rw [List.pairwise_cons]
      constructor
      · intro x hx
        rcases insertDesc_mem hx with rfl | hx2
        · rcases keyLe_total (key k) (key x) with h1 | h1
          · exact absurd h1 hkj
          · exact h1
        · exact h.1 x hx2
      · exact ih h.2

/-- The insertion sort yields a descending pairwise order. -/
theorem sortDesc_pairwise (key : Job → Option Nat) :
    ∀ (l : List Job),
      (sortDesc key l).Pairwise (fun a b => keyLe (key b) (key a) = true) := by
  intro l
  induction l with
  | nil => simp [sortDesc]
  | cons j rest ih =>
    unfold sortDesc
    exact insertDesc_pairwise ih

/-- The keep-first loop only keeps rows of its input. -/
theorem dropDupSerial_subset :
    ∀ (seen : List String) (l : List Job) (x : Job),
      x ∈ dropDupSerial seen l → x ∈ l := by
  intro seen l
  induction l generalizing seen with
  | nil => intro x h; simp [dropDupSerial] at h
  | cons j rest ih =>
    intro x h
    unfold dropDupSerial at h
    by_cases hc : seen.contains j.productSerial = true
    · rw [if_pos hc] at h
      exact List.mem_cons_of_mem j (ih seen x h)
    · rw [if_neg hc] at h
      rcases List.mem_cons.mp h with rfl | h2
      · exact List.mem_cons_self x rest
      · exact List.mem_cons_of_mem j (ih (j.productSerial :: seen) x h2)

/-- A serial already in the seen set never reappears in the kept rows. -/
theorem dropDupSerial_seen :
    ∀ (seen : List String) (l : List Job) (s : String), s ∈ seen →
      (dropDupSerial seen l).filter (fun x => x.productSerial == s) = [] := by
  intro seen l
  induction l generalizing seen with
  | nil => intro s _; rfl
  | cons j rest ih =>
    intro s hs
    unfold dropDupSerial
    by_cases hc : seen.contains j.productSerial = true
    · rw [if_pos hc]
      exact ih seen s hs
    · rw [if_neg hc]
      rw [List.filter_cons]
      have hne : (j.productSerial == s) = false := by
        have : j.productSerial ∉ seen := by simpa using hc
        exact beq_eq_false_iff_ne.mpr (fun hcon => this (hcon ▸ hs))
      rw [hne]
      simp only [Bool.false_eq_true, if_false]
      exact ih (j.productSerial :: seen) s (List.mem_cons_of_mem _ hs)

/-- For a serial not yet seen, the kept rows for that serial are exactly
the first input row carrying it. -/
theorem dropDupSerial_filter :
    ∀ (seen : List String) (l : List Job) (s : String), s ∉ seen →
      (dropDupSerial seen l).filter (fun x => x.productSerial == s)
        = match l.find? (fun x => x.productSerial == s) with
          | some j => [j]
          | none => [] := by
  intro seen l
  induction l generalizing seen with
  | nil => intro s _; rfl
  | cons j rest ih =>
    intro s hs
    unfold dropDupSerial
    rw [List.find?_cons]
    by_cases hjs : (j.productSerial == s) = true
    · have hjs2 : j.productSerial = s := beq_iff_eq.mp hjs
      have hnm : j.productSerial ∉ seen := by rw [hjs2]; exact hs
      have hc : (seen.contains j.productSerial) = false := by simpa using hnm
      rw [if_neg (by rw [hc]; exact Bool.false_ne_true)]
      simp only [hjs]
      rw [List.filter_cons]
      simp only [hjs, if_true]
      rw [dropDupSerial_seen (j.productSerial :: seen) rest s
        (by rw [hjs2]; exact List.mem_cons_self s seen)]
    · have hjsf : (j.productSerial == s) = false := by
        simpa using hjs
      simp only [hjsf]
      by_cases hc : seen.contains j.productSerial = true
      · rw [if_pos hc]
        exact ih seen s hs
      · rw [if_neg hc]
        rw [List.filter_cons]
        simp only [hjsf, Bool.false_eq_true, if_false]
        apply ih (j.productSerial :: seen) s
        intro hmem
        rcases List.mem_cons.mp hmem with heq | h2
        · exact (by simpa using hjsf : ¬ j.productSerial = s) heq.symm
        · exact hs h2

/-- In a descending-sorted list, the first row matching a predicate has a
key at least as large as every matching row. -/
theorem sorted_find_max {key : Job → Option Nat} {p : Job → Bool} :
    ∀ (l : List Job),
      l.Pairwise (fun a b => keyLe (key b) (key a) = true) →
      ∀ (j : Job), l.find? p = some j →
      ∀ k ∈ l, p k = true → keyLe (key k) (key j) = true := by
  intro l
  induction l with
  | nil =>
    intro _ j hfind
    simp at hfind
  | cons a rest ih =>
    intro hpw j hfind k hk hpk
    rw [List.pairwise_cons] at hpw
    rw [List.find?_cons] at hfind
    by_cases hpa : p a = true
    · simp only [hpa] at hfind
      have haj : a = j := by injection hfind
      subst haj
      rcases List.mem_cons.mp hk with rfl | hk2
      · exact keyLe_refl (key k)
      · exact hpw.1 k hk2
    · have hpaf : p a = false := by simpa using hpa
      simp only [hpaf] at hfind
      rcases List.mem_cons.mp hk with rfl | hk2
      · rw [hpk] at hpaf
        simp at hpaf
      · exact ih hpw.2 j hfind k hk2 hpk

/-- C6: deduplication retains, for every non-empty product serial shared
by two or more jobs, exactly one job — one whose sort key (job-creation
timestamp when any valid-serial row has one, otherwise planned date) is
maximal among the group — and drops the rest; every job with an
empty/nan/None serial is retained with its multiplicity; and the removed
count reported by the function equals the length difference (a returned
number, not an exception). -/
theorem deduplicate_jobs_spec :
    ∀ (jobs : List Job),
      (∀ s : String, invalidSerial s = false →
        2 ≤ (jobs.filter (fun x => x.productSerial == s)).length →
        ∃ j, (deduplicate_jobs jobs).1.filter (fun x => x.productSerial == s) = [j]
          ∧ j ∈ jobs ∧ j.productSerial = s
          ∧ ∀ k ∈ jobs, k.productSerial = s →
              keyLe
                (dedupKey (jobs.filter (fun x => !(invalidSerial x.productSerial))) k)
                (dedupKey (jobs.filter (fun x => !(invalidSerial x.productSerial))) j)
                = true)
      ∧ ((deduplicate_jobs jobs).1.filter (fun x => invalidSerial x.productSerial)
          = jobs.filter (fun x => invalidSerial x.productSerial))
      ∧ (deduplicate_jobs jobs).2
          = jobs.length - (deduplicate_jobs jobs).1.length := by
  intro jobs
  by_cases hemp : (jobs.filter (fun j => !(invalidSerial j.productSerial))).isEmpty = true
  · have hdef : deduplicate_jobs jobs = (jobs, 0) := by
      simp only [deduplicate_jobs, hemp, if_true]
    rw [hdef]
    refine ⟨?_, rfl, by simp⟩
    intro s hval hcount
    exfalso
    have hpos : 0 < (jobs.filter (fun x => x.productSerial == s)).length := by omega
    rcases List.exists_mem_of_length_pos hpos with ⟨x, hx⟩
    rcases List.mem_filter.mp hx with ⟨hxj, hxs⟩
    have hxval : (!invalidSerial x.productSerial) = true := by
      rw [beq_iff_eq.mp hxs, hval]
      rfl
    have : x ∈ jobs.filter (fun j => !(invalidSerial j.productSerial)) :=
      List.mem_filter.mpr ⟨hxj, hxval⟩
    rw [List.isEmpty_iff] at hemp
    rw [hemp] at this
    exact List.not_mem_nil x this
  · have hempf : (jobs.filter (fun j => !(invalidSerial j.productSerial))).isEmpty
        = false := by simpa using hemp
    have hdef : deduplicate_jobs jobs
        = (dropDupSerial []
              (sortDesc
                (dedupKey (jobs.filter (fun j => !(invalidSerial j.productSerial))))
                (jobs.filter (fun j => !(invalidSerial j.productSerial))))
            ++ jobs.filter (fun j => invalidSerial j.productSerial),
           jobs.length -
             (dropDupSerial []
                (sortDesc
                  (dedupKey (jobs.filter (fun j => !(invalidSerial j.productSerial))))
                  (jobs.filter (fun j => !(invalidSerial j.productSerial))))
              ++ jobs.filter (fun j => invalidSerial j.productSerial)).length) := by
      simp only [deduplicate_jobs, hempf, Bool.false_eq_true, if_false]
    rw [hdef]
    refine ⟨?_, ?_, rfl⟩
    · intro s hval hcount
      rw [List.filter_append]
      have hnos : (jobs.filter (fun j => invalidSerial j.productSerial)).filter
          (fun x => x.productSerial == s) = [] := by
        rw [List.filter_eq_nil_iff]
        intro x hx hps
        rcases List.mem_filter.mp hx with ⟨_, hinv⟩
        rw [beq_iff_eq.mp hps, hval] at hinv
        simp at hinv
      rw [hnos, List.append_nil]
      have hfound : ∃ x ∈ sortDesc
          (dedupKey (jobs.filter (fun j => !(invalidSerial j.productSerial))))
          (jobs.filter (fun j => !(invalidSerial j.productSerial))),
          (x.productSerial == s) = true := by
        have hpos : 0 < (jobs.filter (fun x => x.productSerial == s)).length := by
          omega
        rcases List.exists_mem_of_length_pos hpos with ⟨x, hx⟩
        rcases List.mem_filter.mp hx with ⟨hxj, hxs⟩
        have hxval : (!invalidSerial x.productSerial) = true := by
          rw [beq_iff_eq.mp hxs, hval]
          rfl
        refine ⟨x, ?_, hxs⟩
        exact (sortDesc_perm _ _).mem_iff.mpr (List.mem_filter.mpr ⟨hxj, hxval⟩)
      have hsome : ((sortDesc
          (dedupKey (jobs.filter (fun j => !(invalidSerial j.productSerial))))
          (jobs.filter (fun j => !(invalidSerial j.productSerial)))).find?
            (fun x => x.productSerial == s)).isSome := by
        rw [List.find?_isSome]
        exact hfound
      rcases Option.isSome_iff_exists.mp hsome with ⟨j, hfind⟩
      refine ⟨j, ?_, ?_, ?_, ?_⟩
      · rw [dropDupSerial_filter [] _ s (List.not_mem_nil s), hfind]
      · have hjs : j ∈ sortDesc
            (dedupKey (jobs.filter (fun j => !(invalidSerial j.productSerial))))
            (jobs.filter (fun j => !(invalidSerial j.productSerial))) :=
          List.mem_of_find?_eq_some hfind
        have := (sortDesc_perm _ _).mem_iff.mp hjs
        exact (List.mem_filter.mp this).1
      · have hpj := @List.find?_some Job (fun x => x.productSerial == s) j _ hfind
        exact beq_iff_eq.mp hpj
      · intro k hk hks
        have hkval : (!invalidSerial k.productSerial) = true := by
          rw [hks, hval]
          rfl
        have hkmem : k ∈ sortDesc
            (dedupKey (jobs.filter (fun j => !(invalidSerial j.productSerial))))
            (jobs.filter (fun j => !(invalidSerial j.productSerial))) :=
          (sortDesc_perm _ _).mem_iff.mpr (List.mem_filter.mpr ⟨hk, hkval⟩)
        exact sorted_find_max _ (sortDesc_pairwise _ _) j hfind k hkmem
          (by rw [hks]; exact beq_self_eq_true s)
    · rw [List.filter_append]
      have hdd : (dropDupSerial []
          (sortDesc
            (dedupKey (jobs.filter (fun j => !(invalidSerial j.productSerial))))
            (jobs.filter (fun j => !(invalidSerial j.productSerial))))).filter
          (fun x => invalidSerial x.productSerial) = [] := by
        rw [List.filter_eq_nil_iff]
        intro x hx hinv
        have hxs := dropDupSerial_subset [] _ x hx
        have := (sortDesc_perm _ _).mem_iff.mp hxs
        rcases List.mem_filter.mp this with ⟨_, hval⟩
        rw [hinv] at hval
        simp at hval
      rw [hdd, List.nil_append]
      rw [List.filter_filter]
      apply List.filter_congr
      intro x _
      exact Bool.and_self (invalidSerial x.productSerial)

/-- Concrete batch for the dedup witness: two jobs sharing serial SER
with different creation timestamps, plus one job with an empty serial. -/
def dedupDemo : List Job :=
  [ ⟨"J1", some 3, none, "Manifested", "C1", "", "SER", some 5, none⟩
  , ⟨"J2", some 4, none, "Re-scheduled", "C1", "", "SER", some 9, none⟩
  , ⟨"J3", some 4, none, "Manifested", "C2", "", "", none, none⟩ ]

/-- Witness for deduplicate_jobs_spec: on the concrete batch, exactly one
job with serial SER survives and carries the maximal creation key. -/
theorem deduplicate_jobs_spec_witness :
    ∃ j, (deduplicate_jobs dedupDemo).1.filter
          (fun x => x.productSerial == "SER") = [j]
      ∧ j ∈ dedupDemo ∧ j.productSerial = "SER"
      ∧ ∀ k ∈ dedupDemo, k.productSerial = "SER" →
          keyLe
            (dedupKey (dedupDemo.filter (fun x => !(invalidSerial x.productSerial))) k)
            (dedupKey (dedupDemo.filter (fun x => !(invalidSerial x.productSerial))) j)
            = true := by
  exact (deduplicate_jobs_spec dedupDemo).1 "SER" (by decide) (by decide)
